import Mathlib

/-
  Shallow embedding of src/gor_bignum.h with the configuration the source
  pins: GORBN_SZWORD = 2 (gorbn_t = uint16_t, gorbn_utmp_t = uint32_t),
  GORBN_SZARR = 256 / 2 = 128 words, GORBN_MAX_VAL = 0xFFFF.

  Machine integers are modelled as Nat with explicit reductions:
  `x & GORBN_MAX_VAL` is `x % 65536`, `x >> GORBN_SZWORD_BITS` is
  `x / 65536`, and uint32 temporaries wrap with `% 4294967296` where the
  source can rely on wraparound.  A gorbn_bignum is a sign (C int,
  embedded as Int) together with the list of its 128 words, least
  significant first.
-/

def GORBN_SZWORD : Nat := 2
def GORBN_SZARR : Nat := 128
def GORBN_MAX_VAL : Nat := 65535

def GORBN_CMP_LARGER : Int := 1
def GORBN_CMP_SMALLER : Int := -1
def GORBN_CMP_EQUAL : Int := 0

structure gorbn_bignum where
  sign : Int
  number : List Nat
deriving DecidableEq

/-- Embeds gorbn_init: all words 0, sign +1. -/
def gorbn_init : gorbn_bignum :=
  { sign := 1, number := List.replicate GORBN_SZARR 0 }

/-- Embeds gorbn_from_uint.  The C parameter has type gorbn_utmp_t =
uint32_t, so an argument is reduced mod 2^32 at the call boundary
(C unsigned conversion); number[0] gets the low 16 bits, number[1] the
high 16 bits, the rest stay 0 from gorbn_init. -/
def gorbn_from_uint (i : Nat) : gorbn_bignum :=
  { sign := 1,
    number := (i % 4294967296) % 65536 :: (i % 4294967296) / 65536 :: List.replicate 126 0 }

/-- Embeds gorbn_from_int.  The C parameter has type gorbn_stmp_t =
int32_t; the source records the sign, takes GORBN_ABS, and packs the low
two 16-bit words. -/
def gorbn_from_int (i : Int) : gorbn_bignum :=
  { sign := if i < 0 then -1 else 1,
    number := i.natAbs % 65536 :: i.natAbs / 65536 % 65536 :: List.replicate 126 0 }

/-- Loop body of gorbn_cmp_mod / the magnitude scan of gorbn_cmp: the
word arrays are scanned from the most significant word down (the C
do-while decrements i from GORBN_SZARR - 1 to 0), so the scan runs over
the reversed word lists; the first unequal pair decides. -/
def cmpModRev : List Nat → List Nat → Int
  | x :: xs, y :: ys =>
    if x > y then GORBN_CMP_LARGER
    else if x < y then GORBN_CMP_SMALLER
    else cmpModRev xs ys
  | _, _ => GORBN_CMP_EQUAL

/-- Embeds gorbn_cmp_mod: magnitude comparison ignoring sign. -/
def gorbn_cmp_mod (a b : gorbn_bignum) : Int :=
  cmpModRev a.number.reverse b.number.reverse

/-- Embeds gorbn_cmp: if the signs differ the one with the bigger sign
wins; otherwise the magnitude scan result is multiplied by a->sign. -/
def gorbn_cmp (a b : gorbn_bignum) : Int :=
  if a.sign ≠ b.sign then
    (if a.sign > b.sign then GORBN_CMP_LARGER else GORBN_CMP_SMALLER)
  else
    cmpModRev a.number.reverse b.number.reverse * a.sign

/-- Embeds gorbn_is_zero: 1 iff every word is 0 (sign ignored). -/
def gorbn_is_zero (a : gorbn_bignum) : Int :=
  if a.number.all (fun w => w == 0) then 1 else 0

/-- Embeds _gorbn_get_ndigits on the reversed word list: the C code
scans i from GORBN_SZARR - 1 down and returns i + 1 at the first
non-zero word, 0 if all words are zero. -/
def ndigitsRev : List Nat → Nat
  | [] => 0
  | x :: xs => if x ≠ 0 then xs.length + 1 else ndigitsRev xs

/-- Embeds _gorbn_get_ndigits. -/
def _gorbn_get_ndigits (l : List Nat) : Nat :=
  ndigitsRev l.reverse

/-- Same-sign loop of _gorbn_internal_addition: word-by-word sum with
carry; tmp1 = a[i] + b[i] + carry (fits in uint32), carry =
(tmp1 > GORBN_MAX_VAL), stored word is tmp1 & GORBN_MAX_VAL. -/
def addLoop : List Nat → List Nat → Nat → List Nat
  | x :: xs, y :: ys, carry =>
    (x + y + carry) % 65536 ::
      addLoop xs ys (if x + y + carry > 65535 then 1 else 0)
  | _, _, _ => []

/-- Carry out of addLoop after all GORBN_SZARR iterations (the source
computes it in the last iteration and then discards it). -/
def addCarry : List Nat → List Nat → Nat → Nat
  | x :: xs, y :: ys, carry => addCarry xs ys (if x + y + carry > 65535 then 1 else 0)
  | _, _, carry => carry

/-- Differing-sign loop of _gorbn_internal_addition: dst = big - low
with borrow.  tmp1 = big[i] + (GORBN_MAX_VAL + 1), tmp2 = low[i] +
borrow, res = tmp1 - tmp2 in uint32 arithmetic (the explicit
% 4294967296 models the uint32 subtraction; for 16-bit words it never
actually wraps), stored word is res & GORBN_MAX_VAL, next borrow is
(res <= GORBN_MAX_VAL). -/
def subLoop : List Nat → List Nat → Nat → List Nat
  | x :: xs, y :: ys, borrow =>
    ((x + 65536 + 4294967296 - (y + borrow)) % 4294967296) % 65536 ::
      subLoop xs ys
        (if (x + 65536 + 4294967296 - (y + borrow)) % 4294967296 ≤ 65535 then 1 else 0)
  | _, _, _ => []

/-- Embeds _gorbn_internal_addition: same signs add the magnitudes and
keep the common sign; differing signs subtract the smaller magnitude
from the larger and set the sign by the source's rule
`if (a_sign > 0 && comp_res >= 0) dst->sign = 1; else dst->sign = -1`. -/
def _gorbn_internal_addition (a : gorbn_bignum) (aSign : Int)
    (b : gorbn_bignum) (bSign : Int) : gorbn_bignum :=
  if aSign = bSign then
    { sign := aSign, number := addLoop a.number b.number 0 }
  else
    let compRes := gorbn_cmp_mod a b
    { sign := if aSign > 0 ∧ compRes ≥ 0 then 1 else -1,
      number :=
        if compRes ≥ 0 then subLoop a.number b.number 0
        else subLoop b.number a.number 0 }

/-- Embeds gorbn_add: r = a + b. -/
def gorbn_add (a b : gorbn_bignum) : gorbn_bignum :=
  _gorbn_internal_addition a a.sign b b.sign

/-- Embeds gorbn_sub: r = a - b, via the same primitive with b's sign
negated. -/
def gorbn_sub (a b : gorbn_bignum) : gorbn_bignum :=
  _gorbn_internal_addition a a.sign b (b.sign * -1)

/-- Inner (j) loop of the live branch of gorbn_mul: for each j below
a_ndigits, uv = buf[i+j] + a[j] * b[i] + c; buf[i+j] = uv &
GORBN_MAX_VAL; c = (uv >> 16) & GORBN_MAX_VAL.  List.set leaves the
list unchanged on an out-of-range index (the C code would write out of
bounds there; gorbn_mul_checked below makes that observable). -/
def mulInnerU (aNum : List Nat) (bi i : Nat) : List Nat → List Nat × Nat → List Nat × Nat
  | [], st => st
  | j :: js, st =>
    mulInnerU aNum bi i js
      (st.1.set (i + j) ((st.1.getD (i + j) 0 + aNum.getD j 0 * bi + st.2) % 65536),
       (st.1.getD (i + j) 0 + aNum.getD j 0 * bi + st.2) / 65536 % 65536)

/-- Outer (i) loop of gorbn_mul: after the inner loop the remaining
carry is stored at buf[i + a_ndigits + 1]. -/
def mulOuterU (aNum bNum : List Nat) (aNd : Nat) : List Nat → List Nat → List Nat
  | [], buf => buf
  | i :: is, buf =>
    mulOuterU aNum bNum aNd is
      (let st := mulInnerU aNum (bNum.getD i 0) i (List.range aNd) (buf, 0)
       st.1.set (i + aNd + 1) st.2)

/-- Embeds gorbn_mul: buf is gorbn_init'ed (all words 0, sign +1), the
nested loops run over the digit counts of b (outer) and a (inner), and
buf is copied to the destination at the end — including buf's sign,
which is never written by the loops. -/
def gorbn_mul (a b : gorbn_bignum) : gorbn_bignum :=
  { sign := 1,
    number :=
      mulOuterU a.number b.number (_gorbn_get_ndigits a.number)
        (List.range (_gorbn_get_ndigits b.number))
        (List.replicate GORBN_SZARR 0) }

/-- Checked word read: some a[i] when i is in bounds, none otherwise
(the C code's access would be out of bounds). -/
def readWord (l : List Nat) (i : Nat) : Option Nat :=
  if h : i < l.length then some (l.get ⟨i, h⟩) else none

/-- Checked word write: some of the updated list when i is in bounds,
none otherwise. -/
def writeWord (l : List Nat) (i : Nat) (v : Nat) : Option (List Nat) :=
  if i < l.length then some (l.set i v) else none

/-- Inner loop of gorbn_mul with every array access bounds-checked:
identical arithmetic to mulInnerU, but each read and write of the
128-word buffer is checked. -/
def mulCheckedInner (aNum : List Nat) (bi i : Nat) :
    List Nat → List Nat × Nat → Option (List Nat × Nat)
  | [], st => some st
  | j :: js, st =>
    match readWord st.1 (i + j), readWord aNum j with
    | some r, some x =>
      match writeWord st.1 (i + j) ((r + x * bi + st.2) % 65536) with
      | some buf2 => mulCheckedInner aNum bi i js (buf2, (r + x * bi + st.2) / 65536 % 65536)
      | none => none
    | _, _ => none

/-- Outer loop of gorbn_mul with every array access bounds-checked,
including the carry store at buf[i + a_ndigits + 1]. -/
def mulCheckedOuter (aNum bNum : List Nat) (aNd : Nat) :
    List Nat → List Nat → Option (List Nat)
  | [], buf => some buf
  | i :: is, buf =>
    match readWord bNum i with
    | some bi =>
      match mulCheckedInner aNum bi i (List.range aNd) (buf, 0) with
      | some st =>
        match writeWord st.1 (i + aNd + 1) st.2 with
        | some buf2 => mulCheckedOuter aNum bNum aNd is buf2
        | none => none
      | none => none
    | none => none

/-- Total embedding of gorbn_mul with bounds-checked buffer accesses:
none exactly when the C code would access the 128-word buffer out of
bounds. -/
def gorbn_mul_checked (a b : gorbn_bignum) : Option gorbn_bignum :=
  match mulCheckedOuter a.number b.number (_gorbn_get_ndigits a.number)
      (List.range (_gorbn_get_ndigits b.number))
      (List.replicate GORBN_SZARR 0) with
  | some buf => some { sign := 1, number := buf }
  | none => none

/-- Embeds gorbn_and.  The source's loop body is
`r->number[i] = a->number[i] | b->number[i]` — a bitwise OR despite the
function's name and its declaration comment `r = a & b`.  Only the
words are written: the destination's sign is left untouched. -/
def gorbn_and (r a b : gorbn_bignum) : gorbn_bignum :=
  { sign := r.sign, number := List.zipWith (fun x y => Nat.lor x y) a.number b.number }

/-- Embeds gorbn_or.  The source's loop body is
`r->number[i] = a->number[i] ^ b->number[i]` — a bitwise XOR. -/
def gorbn_or (r a b : gorbn_bignum) : gorbn_bignum :=
  { sign := r.sign, number := List.zipWith (fun x y => Nat.xor x y) a.number b.number }

/-- Embeds gorbn_xor.  The source's loop body is
`r->number[i] = a->number[i] & b->number[i]` — a bitwise AND. -/
def gorbn_xor (r a b : gorbn_bignum) : gorbn_bignum :=
  { sign := r.sign, number := List.zipWith (fun x y => Nat.land x y) a.number b.number }

/-- Embeds gorbn_div.  The entire body of the source function is inside
`#if 0 ... #else ... #endif` with an empty live branch: the function
returns without touching the destination r and without reporting
anything. -/
def gorbn_div (r a b : gorbn_bignum) : gorbn_bignum :=
  r

/-- Byte k of the memory image of n->number after gorbn_from_data:
gorbn_init zeroes the words, then the first dataSize bytes of data are
copied in verbatim. -/
def _gorbn_data_byte (data : List Nat) (dataSize k : Nat) : Nat :=
  if k < dataSize then data.getD k 0 else 0

/-- Embeds gorbn_from_data: the byte image is regrouped into 16-bit
words in the machine's little-endian layout (word i = byte 2i +
256 * byte (2i+1)); sign stays +1 from gorbn_init. -/
def gorbn_from_data (data : List Nat) (dataSize : Nat) : gorbn_bignum :=
  { sign := 1,
    number := (List.range GORBN_SZARR).map (fun i =>
      _gorbn_data_byte data dataSize (2 * i) +
        256 * _gorbn_data_byte data dataSize (2 * i + 1)) }

/-- Little-endian byte image of one 16-bit word. -/
def wordBytes (w : Nat) : List Nat :=
  [w % 256, w / 256 % 256]

/-- Embeds gorbn_to_data: all GORBN_SZARR words are copied out,
producing exactly GORBN_SZARR * GORBN_SZWORD = 256 bytes in the same
byte order gorbn_from_data reads. -/
def gorbn_to_data (n : gorbn_bignum) : List Nat :=
  (n.number.map wordBytes).flatten

/-- Value of a word list, least significant word first, base 65536. -/
def wordsVal : List Nat → Nat
  | [] => 0
  | w :: ws => w + 65536 * wordsVal ws

/-- Value of a word list given most significant word first. -/
def wordsValRev : List Nat → Nat
  | [] => 0
  | x :: xs => x * 65536 ^ xs.length + wordsValRev xs

/-- A structurally well-formed bignum: 128 words, each below 2^16. -/
def GoodBn (n : gorbn_bignum) : Prop :=
  n.number.length = GORBN_SZARR ∧ ∀ w ∈ n.number, w < 65536

/-- Canonical form: well-formed, sign is +1 or -1, and zero carries
sign +1 (the representation the library's constructors produce). -/
def Canonical (n : gorbn_bignum) : Prop :=
  n.number.length = GORBN_SZARR ∧ (∀ w ∈ n.number, w < 65536) ∧
    (n.sign = 1 ∨ n.sign = -1) ∧ (wordsVal n.number = 0 → n.sign = 1)

/-- Signed integer value of a bignum (sign-magnitude reading). -/
def gorbn_value (n : gorbn_bignum) : Int :=
  n.sign * (wordsVal n.number : Int)

/-- Three-way comparison of integers, as the GORBN_CMP_* tokens. -/
def cmpInt (x y : Int) : Int :=
  if x > y then 1 else if x < y then -1 else 0

/-- Three-way comparison of naturals, as the GORBN_CMP_* tokens. -/
def cmpNat (x y : Nat) : Int :=
  if x > y then 1 else if x < y then -1 else 0

instance : DecidablePred GoodBn := fun n => by
  unfold GoodBn; infer_instance

instance : DecidablePred Canonical := fun n => by
  unfold Canonical; infer_instance

/-- Helper fact: _gorbn_get_ndigits never exceeds the number of words. -/
theorem ndigitsRev_le (xs : List Nat) : ndigitsRev xs ≤ xs.length := by
  induction xs with
  | nil => simp [ndigitsRev]
  | cons x xs ih =>
    unfold ndigitsRev
    by_cases h : x ≠ 0
    · simp [h]
    · simp [h]
      exact ih.trans (Nat.le_succ _)

theorem get_ndigits_le (l : List Nat) : _gorbn_get_ndigits l ≤ l.length := by
  unfold _gorbn_get_ndigits
  simpa using ndigitsRev_le l.reverse

/-- Claim C1: the source's bitwise routines compute the wrong operator —
at a = from_uint(3), b = from_uint(5), gorbn_and stores 7 = 3 OR 5,
gorbn_or stores 6 = 3 XOR 5, and gorbn_xor stores 1 = 3 AND 5, each
contradicting the operator in the function's name and its declaration
comment. -/
theorem c1_bitwise_ops_swapped :
    (gorbn_and gorbn_init (gorbn_from_uint 3) (gorbn_from_uint 5)).number.getD 0 0 = 7 ∧
    (gorbn_or gorbn_init (gorbn_from_uint 3) (gorbn_from_uint 5)).number.getD 0 0 = 6 ∧
    (gorbn_xor gorbn_init (gorbn_from_uint 3) (gorbn_from_uint 5)).number.getD 0 0 = 1 := by
  decide

/-- Claim C2 (counterexample): gorbn_mul(from_uint(123456),
from_uint(654321)) is not the value built by from_uint(80784793176). -/
theorem c2_mul_concrete_counterexample :
    gorbn_mul (gorbn_from_uint 123456) (gorbn_from_uint 654321) ≠
      gorbn_from_uint 80784793176 := by
  decide

set_option maxRecDepth 10000 in
/-- Claim C2 (amended): gorbn_mul(from_uint(123456), from_uint(654321))
produces the word array [48704, 52954, 17, 1, 0, ...] — the carry of
each outer iteration is stored at index i + a_ndigits + 1, one word
above the slot the partial product's carry belongs in — and its value
is not the mathematical product 123456 * 654321 = 80779853376. -/
theorem c2_mul_concrete_result :
    gorbn_mul (gorbn_from_uint 123456) (gorbn_from_uint 654321) =
      { sign := 1, number := 48704 :: 52954 :: 17 :: 1 :: List.replicate 124 0 } ∧
    wordsVal (gorbn_mul (gorbn_from_uint 123456) (gorbn_from_uint 654321)).number ≠
      123456 * 654321 := by
  decide

/-- Claim C3: at a = from_int(-1), b = from_int(3) the signs differ and
b has the strictly larger magnitude (gorbn_cmp_mod = SMALLER) with sign
+1, yet gorbn_add produces sign -1 with magnitude 2 (the value -2
instead of 2): the result sign is not the sign of the operand with the
larger magnitude. -/
theorem c3_add_mixed_sign_wrong :
    gorbn_add (gorbn_from_int (-1)) (gorbn_from_int 3) =
      { sign := -1, number := 2 :: List.replicate 127 0 } ∧
    gorbn_cmp_mod (gorbn_from_int (-1)) (gorbn_from_int 3) = GORBN_CMP_SMALLER ∧
    (gorbn_from_int 3).sign = 1 ∧ (gorbn_from_int (-1)).sign = -1 := by
  decide

/-- Claim C4: the add/sub round trip fails at a = from_int(-1),
b = from_int(3): gorbn_add gives -2 (wrong sign), and subtracting b
again gives -5, not a. -/
theorem c4_add_sub_round_trip_fails :
    gorbn_sub (gorbn_add (gorbn_from_int (-1)) (gorbn_from_int 3)) (gorbn_from_int 3) =
      { sign := -1, number := 5 :: List.replicate 127 0 } ∧
    gorbn_sub (gorbn_add (gorbn_from_int (-1)) (gorbn_from_int 3)) (gorbn_from_int 3) ≠
      gorbn_from_int (-1) := by
  decide

/-- Claim C5 (counterexample): the operand signs differ at
a = from_int(-1), b = from_uint(2), yet the product's sign is +1, not
the -1 the sign-XOR rule requires. -/
theorem c5_mul_sign_counterexample :
    (gorbn_from_int (-1)).sign ≠ (gorbn_from_uint 2).sign ∧
    (gorbn_mul (gorbn_from_int (-1)) (gorbn_from_uint 2)).sign = 1 := by
  decide

/-- Claim C5 (amended): gorbn_mul's result sign is always +1: the
accumulation buffer is gorbn_init'ed (sign +1), the loops write only
words, and gorbn_copy transfers buf's sign to the destination. -/
theorem c5_mul_sign_always_one : ∀ a b : gorbn_bignum, (gorbn_mul a b).sign = 1 :=
  fun _ _ => rfl

/-- Claim C6 (counterexample): adding 1 to the all-0xFFFF magnitude
(carry out of the top word = 1) yields the all-zero word array with
sign +1: the final carry is silently discarded and no fault of any kind
is produced (the function is total and has no error channel). -/
theorem c6_add_overflow_wraps :
    gorbn_add { sign := 1, number := List.replicate GORBN_SZARR 65535 } (gorbn_from_uint 1) =
      { sign := 1, number := List.replicate GORBN_SZARR 0 } := by
  decide

/-- Claim C7: gorbn_div is an unimplemented stub — its whole body is
preprocessed away — so with a zero-magnitude divisor it reports nothing
and leaves the destination exactly as it was. -/
theorem c7_div_is_stub :
    gorbn_div (gorbn_from_uint 7) (gorbn_from_uint 17) (gorbn_from_uint 0) =
      gorbn_from_uint 7 ∧
    gorbn_is_zero (gorbn_from_uint 0) = 1 := by
  decide

set_option maxRecDepth 40000 in
/-- Claim C8 (counterexample): with digits(a) = 127 and digits(b) = 1
the claim's precondition digits(a) + digits(b) <= W = 128 holds, yet the
carry store of the first outer iteration targets index
0 + 127 + 1 = 128, out of bounds for the 128-word buffer: the checked
embedding returns none. -/
theorem c8_mul_store_out_of_bounds :
    _gorbn_get_ndigits (List.replicate 126 (0:Nat) ++ [1, 0]) +
      _gorbn_get_ndigits (gorbn_from_uint 1).number = GORBN_SZARR ∧
    gorbn_mul_checked { sign := 1, number := List.replicate 126 (0:Nat) ++ [1, 0] }
      (gorbn_from_uint 1) = none := by
  decide

theorem addLoop_length (as bs : List Nat) (c : Nat) (h : as.length = bs.length) :
    (addLoop as bs c).length = as.length := by
  induction as generalizing bs c with
  | nil => simp [addLoop]
  | cons x xs ih =>
    cases bs with
    | nil => simp at h
    | cons y ys =>
      simp only [addLoop, List.length_cons]
      rw [ih ys _ (by simpa using h)]

theorem addLoop_words_lt (as bs : List Nat) (c : Nat) :
    ∀ w ∈ addLoop as bs c, w < 65536 := by
  induction as generalizing bs c with
  | nil => simp [addLoop]
  | cons x xs ih =>
    cases bs with
    | nil => simp [addLoop]
    | cons y ys =>
      intro w hw
      simp only [addLoop, List.mem_cons] at hw
      rcases hw with h | h
      · subst h; exact Nat.mod_lt _ (by norm_num)
      · exact ih ys _ w h

theorem addLoop_spec (as bs : List Nat) (c : Nat) (h : as.length = bs.length)
    (ha : ∀ w ∈ as, w < 65536) (hb : ∀ w ∈ bs, w < 65536) (hc : c ≤ 1) :
    wordsVal (addLoop as bs c) + 65536 ^ as.length * addCarry as bs c =
      wordsVal as + wordsVal bs + c := by
  induction as generalizing bs c with
  | nil =>
    cases bs with
    | nil => simp [addLoop, addCarry, wordsVal]
    | cons y ys => simp at h
  | cons x xs ih =>
    cases bs with
    | nil => simp at h
    | cons y ys =>
      have hx : x < 65536 := ha x (by simp)
      have hy : y < 65536 := hb y (by simp)
      have hlen : xs.length = ys.length := by simpa using h
      have hc2 : (if x + y + c > 65535 then 1 else 0) ≤ 1 := by split <;> omega
      have ihh := ih ys (if x + y + c > 65535 then 1 else 0) hlen
        (fun w hw => ha w (by simp [hw])) (fun w hw => hb w (by simp [hw])) hc2
      have hsplit : (x + y + c) % 65536 + 65536 * (if x + y + c > 65535 then 1 else 0)
          = x + y + c := by split <;> omega
      simp only [addLoop, addCarry, wordsVal, List.length_cons]
      calc (x + y + c) % 65536 + 65536 * wordsVal (addLoop xs ys (if x + y + c > 65535 then 1 else 0)) +
            65536 ^ (xs.length + 1) * addCarry xs ys (if x + y + c > 65535 then 1 else 0)
          = (x + y + c) % 65536 + 65536 * (wordsVal (addLoop xs ys (if x + y + c > 65535 then 1 else 0)) +
              65536 ^ xs.length * addCarry xs ys (if x + y + c > 65535 then 1 else 0)) := by
            rw [pow_succ]; ring
        _ = (x + y + c) % 65536 + 65536 * (wordsVal xs + wordsVal ys + (if x + y + c > 65535 then 1 else 0)) := by
            rw [ihh]
        _ = ((x + y + c) % 65536 + 65536 * (if x + y + c > 65535 then 1 else 0)) +
              65536 * wordsVal xs + 65536 * wordsVal ys := by ring
        _ = (x + y + c) + 65536 * wordsVal xs + 65536 * wordsVal ys := by rw [hsplit]
        _ = x + 65536 * wordsVal xs + (y + 65536 * wordsVal ys) + c := by ring

theorem wordsVal_lt (l : List Nat) (h : ∀ w ∈ l, w < 65536) :
    wordsVal l < 65536 ^ l.length := by
  induction l with
  | nil => simp [wordsVal]
  | cons w ws ih =>
    have hw : w < 65536 := h w (by simp)
    have hv : wordsVal ws < 65536 ^ ws.length := ih (fun x hx => h x (by simp [hx]))
    simp only [wordsVal, List.length_cons]
    calc w + 65536 * wordsVal ws < 65536 * (wordsVal ws + 1) := by omega
      _ ≤ 65536 * 65536 ^ ws.length := Nat.mul_le_mul_left _ (by omega)
      _ = 65536 ^ (ws.length + 1) := by rw [pow_succ]; ring

/-- Claim C6 (amended): when two same-sign operands are added, gorbn_add
keeps the common sign and stores the low 128 words of the magnitude sum:
the carry out of the top word is discarded (wraparound), and no fault is
reported — the function is total and the library has no error channel. -/
theorem c6_add_same_sign_mod (a b : gorbn_bignum) (ha : GoodBn a) (hb : GoodBn b)
    (hs : a.sign = b.sign) :
    (gorbn_add a b).sign = a.sign ∧
    wordsVal (gorbn_add a b).number =
      (wordsVal a.number + wordsVal b.number) % 65536 ^ GORBN_SZARR := by
  obtain ⟨haL, haW⟩ := ha
  obtain ⟨hbL, hbW⟩ := hb
  unfold gorbn_add _gorbn_internal_addition
  rw [if_pos hs]
  refine ⟨rfl, ?_⟩
  have hlen : a.number.length = b.number.length := by rw [haL, hbL]
  have hspec := addLoop_spec a.number b.number 0 hlen haW hbW (by omega)
  have hlt : wordsVal (addLoop a.number b.number 0) < 65536 ^ a.number.length := by
    have h1 := wordsVal_lt (addLoop a.number b.number 0) (addLoop_words_lt _ _ _)
    rwa [addLoop_length _ _ _ hlen] at h1
  rw [haL] at hspec hlt
  have h1 : wordsVal a.number + wordsVal b.number =
      wordsVal (addLoop a.number b.number 0) + 65536 ^ GORBN_SZARR * addCarry a.number b.number 0 := by
    omega
  rw [h1, Nat.add_mul_mod_self_left, Nat.mod_eq_of_lt hlt]

set_option maxRecDepth 4000 in
/-- Claim C6 witness: the amended theorem applied at from_uint(500) and
from_uint(700). -/
theorem c6_add_same_sign_mod_witness :
    (gorbn_add (gorbn_from_uint 500) (gorbn_from_uint 700)).sign = (gorbn_from_uint 500).sign ∧
    wordsVal (gorbn_add (gorbn_from_uint 500) (gorbn_from_uint 700)).number =
      (wordsVal (gorbn_from_uint 500).number + wordsVal (gorbn_from_uint 700).number) %
        65536 ^ GORBN_SZARR :=
  c6_add_same_sign_mod _ _ (by decide) (by decide) rfl

theorem mulCheckedInner_some (aNum : List Nat) (bi i : Nat) (js : List Nat) :
    ∀ (buf : List Nat) (c : Nat), buf.length = 128 →
    (∀ j ∈ js, j < aNum.length ∧ i + j < 128) →
    ∃ buf2 c2, mulCheckedInner aNum bi i js (buf, c) = some (buf2, c2) ∧ buf2.length = 128 := by
  induction js with
  | nil => intro buf c hbuf hjs; exact ⟨buf, c, rfl, hbuf⟩
  | cons j js ih =>
    intro buf c hbuf hjs
    obtain ⟨hja, hji⟩ := hjs j (by simp)
    have hr : readWord buf (i + j) = some (buf.get ⟨i + j, by omega⟩) := by
      unfold readWord
      rw [dif_pos]
    have hx : readWord aNum j = some (aNum.get ⟨j, hja⟩) := by
      unfold readWord
      rw [dif_pos]
    have hw : writeWord buf (i + j)
        ((buf.get ⟨i + j, by omega⟩ + aNum.get ⟨j, hja⟩ * bi + c) % 65536) =
        some (buf.set (i + j)
          ((buf.get ⟨i + j, by omega⟩ + aNum.get ⟨j, hja⟩ * bi + c) % 65536)) := by
      unfold writeWord
      rw [if_pos (by omega)]
    obtain ⟨buf2, c2, heq, hlen⟩ := ih (buf.set (i + j)
        ((buf.get ⟨i + j, by omega⟩ + aNum.get ⟨j, hja⟩ * bi + c) % 65536))
      ((buf.get ⟨i + j, by omega⟩ + aNum.get ⟨j, hja⟩ * bi + c) / 65536 % 65536)
      (by simp [hbuf]) (fun x hx2 => hjs x (by simp [hx2]))
    refine ⟨buf2, c2, ?_, hlen⟩
    simp only [mulCheckedInner, hr, hx, hw]
    exact heq

theorem mulCheckedOuter_some (aNum bNum : List Nat) (aNd : Nat) (is2 : List Nat) :
    ∀ buf : List Nat, buf.length = 128 →
    aNd ≤ aNum.length →
    (∀ i ∈ is2, i < bNum.length ∧ i + aNd + 1 < 128) →
    ∃ buf2, mulCheckedOuter aNum bNum aNd is2 buf = some buf2 := by
  induction is2 with
  | nil => intro buf hbuf _ _; exact ⟨buf, rfl⟩
  | cons i is2 ih =>
    intro buf hbuf hand his
    obtain ⟨hib, hia⟩ := his i (by simp)
    have hbi : readWord bNum i = some (bNum.get ⟨i, hib⟩) := by
      unfold readWord
      rw [dif_pos]
    obtain ⟨buf2, c2, hinner, hlen2⟩ := mulCheckedInner_some aNum (bNum.get ⟨i, hib⟩) i
      (List.range aNd) buf 0 hbuf
      (fun j hj => by
        have hj2 : j < aNd := List.mem_range.mp hj
        exact ⟨by omega, by omega⟩)
    have hw : writeWord buf2 (i + aNd + 1) c2 = some (buf2.set (i + aNd + 1) c2) := by
      unfold writeWord
      rw [if_pos (by omega)]
    obtain ⟨buf3, houter⟩ := ih (buf2.set (i + aNd + 1) c2) (by simp [hlen2]) hand
      (fun x hx2 => his x (by simp [hx2]))
    refine ⟨buf3, ?_⟩
    simp only [mulCheckedOuter, hbi, hinner, hw]
    exact houter

/-- Claim C8 (amended): under the stronger precondition digits(a) +
digits(b) + 1 <= W = 128 — the bound the source's own assert
`n + t + 1 <= GORBN_SZARR` in _gorbn_internal_mul states — every array
access of gorbn_mul, including the carry store at i + a_ndigits + 1,
is in bounds: the bounds-checked embedding succeeds. -/
theorem c8_mul_checked_in_bounds (a b : gorbn_bignum)
    (ha : a.number.length = GORBN_SZARR) (hb : b.number.length = GORBN_SZARR)
    (hnd : _gorbn_get_ndigits a.number + _gorbn_get_ndigits b.number + 1 ≤ GORBN_SZARR) :
    (gorbn_mul_checked a b).isSome = true := by
  unfold gorbn_mul_checked
  have hA : _gorbn_get_ndigits a.number ≤ a.number.length := get_ndigits_le _
  have hB : _gorbn_get_ndigits b.number ≤ b.number.length := get_ndigits_le _
  rw [ha] at hA
  rw [hb] at hB
  unfold GORBN_SZARR at hA hB hnd ha hb
  obtain ⟨buf2, heq⟩ := mulCheckedOuter_some a.number b.number (_gorbn_get_ndigits a.number)
    (List.range (_gorbn_get_ndigits b.number)) (List.replicate GORBN_SZARR 0)
    (by simp [GORBN_SZARR]) (by omega)
    (fun i hi => by
      have hi2 : i < _gorbn_get_ndigits b.number := List.mem_range.mp hi
      constructor
      · omega
      · omega)
  rw [heq]
  rfl

set_option maxRecDepth 4000 in
/-- Claim C8 witness: the amended theorem applied at from_uint(2) and
from_uint(3), whose digit counts are 1 and 1. -/
theorem c8_mul_checked_in_bounds_witness :
    (gorbn_mul_checked (gorbn_from_uint 2) (gorbn_from_uint 3)).isSome = true :=
  c8_mul_checked_in_bounds _ _ (by decide) (by decide) (by decide)

theorem wordsValRev_append (xs : List Nat) (w : Nat) :
    wordsValRev (xs ++ [w]) = 65536 * wordsValRev xs + w := by
  induction xs with
  | nil => simp [wordsValRev]
  | cons x xs ih =>
    simp only [List.cons_append, wordsValRev, List.append_eq, ih]
    have hl : (xs ++ [w]).length = xs.length + 1 := by simp
    rw [hl, pow_succ]
    ring

theorem wordsVal_reverse (l : List Nat) : wordsVal l = wordsValRev l.reverse := by
  induction l with
  | nil => rfl
  | cons w ws ih =>
    simp only [wordsVal, List.reverse_cons, wordsValRev_append, ih]
    ring

theorem wordsValRev_lt (xs : List Nat) (h : ∀ w ∈ xs, w < 65536) :
    wordsValRev xs < 65536 ^ xs.length := by
  induction xs with
  | nil => simp [wordsValRev]
  | cons x xs ih =>
    have hx : x < 65536 := h x (by simp)
    have hv : wordsValRev xs < 65536 ^ xs.length := ih (fun w hw => h w (by simp [hw]))
    simp only [wordsValRev, List.length_cons]
    calc x * 65536 ^ xs.length + wordsValRev xs
        < x * 65536 ^ xs.length + 65536 ^ xs.length := by omega
      _ = (x + 1) * 65536 ^ xs.length := by ring
      _ ≤ 65536 * 65536 ^ xs.length := Nat.mul_le_mul (by omega) (le_refl _)
      _ = 65536 ^ (xs.length + 1) := by rw [pow_succ]; ring

theorem cmpModRev_self (xs : List Nat) : cmpModRev xs xs = GORBN_CMP_EQUAL := by
  induction xs with
  | nil => rfl
  | cons x xs ih => simp [cmpModRev, ih]

theorem cmpModRev_spec (xs : List Nat) : ∀ ys : List Nat, xs.length = ys.length →
    (∀ w ∈ xs, w < 65536) → (∀ w ∈ ys, w < 65536) →
    cmpModRev xs ys = cmpNat (wordsValRev xs) (wordsValRev ys) := by
  induction xs with
  | nil =>
    intro ys hlen _ _
    cases ys with
    | nil => rfl
    | cons y ys => simp at hlen
  | cons x xs ih =>
    intro ys hlen hx hy
    cases ys with
    | nil => simp at hlen
    | cons y ys =>
      have hlen2 : xs.length = ys.length := by simpa using hlen
      have hxw : x < 65536 := hx x (by simp)
      have hyw : y < 65536 := hy y (by simp)
      have hxs : ∀ w ∈ xs, w < 65536 := fun w hw => hx w (by simp [hw])
      have hys : ∀ w ∈ ys, w < 65536 := fun w hw => hy w (by simp [hw])
      have hvx : wordsValRev xs < 65536 ^ xs.length := wordsValRev_lt xs hxs
      have hvy : wordsValRev ys < 65536 ^ ys.length := wordsValRev_lt ys hys
      have hMeq : (65536:Nat) ^ xs.length = 65536 ^ ys.length := by rw [hlen2]
      rcases Nat.lt_trichotomy x y with hlt | heq | hgt
      · -- x < y: the scanned side is smaller
        have key : x * 65536 ^ xs.length + wordsValRev xs <
            y * 65536 ^ ys.length + wordsValRev ys := by
          have h1 : (x + 1) * 65536 ^ ys.length ≤ y * 65536 ^ ys.length :=
            Nat.mul_le_mul (by omega) (le_refl _)
          have h2 : (x + 1) * 65536 ^ ys.length = x * 65536 ^ ys.length + 65536 ^ ys.length := by
            ring
          rw [hMeq]
          omega
        simp only [cmpModRev, wordsValRev, cmpNat]
        rw [if_neg (by omega), if_pos hlt, if_neg (by omega), if_pos key]
        rfl
      · -- x = y: decided by the tails
        subst heq
        have tail := ih ys hlen2 hxs hys
        simp only [cmpModRev, wordsValRev, cmpNat] at tail ⊢
        rw [if_neg (by omega), if_neg (by omega)]
        rw [tail]
        have hMM : x * 65536 ^ xs.length = x * 65536 ^ ys.length := by rw [hMeq]
        rcases Nat.lt_trichotomy (wordsValRev xs) (wordsValRev ys) with h | h | h
        · rw [if_neg (by omega), if_pos h, if_neg (by omega), if_pos (by omega)]
        · rw [if_neg (by omega), if_neg (by omega), if_neg (by omega), if_neg (by omega)]
        · rw [if_pos h, if_pos (by omega)]
      · -- x > y: the scanned side is larger
        have key : y * 65536 ^ ys.length + wordsValRev ys <
            x * 65536 ^ xs.length + wordsValRev xs := by
          have h1 : (y + 1) * 65536 ^ ys.length ≤ x * 65536 ^ ys.length :=
            Nat.mul_le_mul (by omega) (le_refl _)
          have h2 : (y + 1) * 65536 ^ ys.length = y * 65536 ^ ys.length + 65536 ^ ys.length := by
            ring
          rw [hMeq]
          omega
        simp only [cmpModRev, wordsValRev, cmpNat]
        rw [if_pos hgt, if_pos key]
        rfl

theorem cmpNat_cast (m n : Nat) : cmpNat m n = cmpInt (m : Int) (n : Int) := by
  unfold cmpNat cmpInt
  rcases Nat.lt_trichotomy m n with h | h | h
  · rw [if_neg (show ¬ m > n by omega), if_pos h,
      if_neg (show ¬ ((m:Int) > (n:Int)) by omega), if_pos (show (m:Int) < (n:Int) by omega)]
  · rw [if_neg (show ¬ m > n by omega), if_neg (show ¬ m < n by omega),
      if_neg (show ¬ ((m:Int) > (n:Int)) by omega), if_neg (show ¬ ((m:Int) < (n:Int)) by omega)]
  · rw [if_pos h, if_pos (show (m:Int) > (n:Int) by omega)]

theorem cmpInt_neg (x y : Int) : cmpInt x y * -1 = cmpInt (-1 * x) (-1 * y) := by
  unfold cmpInt
  rcases lt_trichotomy x y with h | h | h
  · rw [if_neg (show ¬ x > y by omega), if_pos h, if_pos (show -1 * x > -1 * y by omega)]
    norm_num
  · rw [if_neg (show ¬ x > y by omega), if_neg (show ¬ x < y by omega),
      if_neg (show ¬ (-1 * x > -1 * y) by omega), if_neg (show ¬ (-1 * x < -1 * y) by omega)]
    norm_num
  · rw [if_pos h, if_neg (show ¬ (-1 * x > -1 * y) by omega),
      if_pos (show -1 * x < -1 * y by omega)]
    norm_num

/-- Claim C9 (amended): gorbn_cmp(a, a) = EQUAL for every a, and on
canonical values (sign is +1 or -1, and a zero magnitude forces sign
+1) gorbn_cmp agrees with the three-way comparison of the signed
integer values.  The consistency does not extend to the negative zero
the library itself can produce (see the counterexample). -/
theorem c9_cmp_spec :
    (∀ a : gorbn_bignum, gorbn_cmp a a = GORBN_CMP_EQUAL) ∧
    (∀ a b : gorbn_bignum, Canonical a → Canonical b →
      gorbn_cmp a b = cmpInt (gorbn_value a) (gorbn_value b)) := by
  constructor
  · intro a
    unfold gorbn_cmp
    rw [if_neg (by simp)]
    rw [cmpModRev_self]
    unfold GORBN_CMP_EQUAL
    ring
  · intro a b ha hb
    obtain ⟨haL, haW, haS, haZ⟩ := ha
    obtain ⟨hbL, hbW, hbS, hbZ⟩ := hb
    by_cases hs : a.sign = b.sign
    · unfold gorbn_cmp
      rw [if_neg (by simp [hs])]
      have hcm : cmpModRev a.number.reverse b.number.reverse =
          cmpNat (wordsVal a.number) (wordsVal b.number) := by
        rw [cmpModRev_spec a.number.reverse b.number.reverse (by simp [haL, hbL])
          (fun w hw => haW w (List.mem_reverse.mp hw))
          (fun w hw => hbW w (List.mem_reverse.mp hw))]
        rw [← wordsVal_reverse, ← wordsVal_reverse]
      rw [hcm]
      unfold gorbn_value
      rcases haS with h1 | h1 <;> rcases hbS with h2 | h2
      · rw [h1, h2]
        simp only [one_mul, mul_one]
        exact cmpNat_cast _ _
      · rw [h1, h2] at hs
        exact absurd hs (by decide)
      · rw [h1, h2] at hs
        exact absurd hs (by decide)
      · rw [h1, h2]
        rw [cmpNat_cast]
        exact cmpInt_neg _ _
    · unfold gorbn_cmp
      rw [if_pos hs]
      unfold gorbn_value
      rcases haS with h1 | h1 <;> rcases hbS with h2 | h2
      · rw [h1, h2] at hs
        exact absurd hs (by simp)
      · -- a positive, b negative: code answers LARGER
        have hvb : wordsVal b.number ≠ 0 := by
          intro h0
          have hz := hbZ h0
          rw [hz] at h2
          exact absurd h2 (by decide)
        rw [if_pos (by rw [h1, h2]; decide)]
        rw [h1, h2]
        have hgt : (1:Int) * (wordsVal a.number : Int) > -1 * (wordsVal b.number : Int) := by
          omega
        unfold cmpInt
        rw [if_pos hgt]
        rfl
      · -- a negative, b positive: code answers SMALLER
        have hva : wordsVal a.number ≠ 0 := by
          intro h0
          have hz := haZ h0
          rw [hz] at h1
          exact absurd h1 (by decide)
        rw [if_neg (by rw [h1, h2]; decide)]
        rw [h1, h2]
        have hlt : -1 * (wordsVal a.number : Int) < 1 * (wordsVal b.number : Int) := by
          omega
        unfold cmpInt
        rw [if_neg (show ¬ (-1 * (wordsVal a.number : Int) > 1 * (wordsVal b.number : Int)) by omega),
          if_pos hlt]
        rfl
      · rw [h1, h2] at hs
        exact absurd hs (by simp)

set_option maxRecDepth 4000 in
/-- Claim C9 witness: the amended theorem applied at a = from_uint(5)
(reflexivity part) and at the canonical pair (from_uint(5),
from_int(-2)). -/
theorem c9_cmp_spec_witness :
    gorbn_cmp (gorbn_from_uint 5) (gorbn_from_uint 5) = GORBN_CMP_EQUAL ∧
    gorbn_cmp (gorbn_from_uint 5) (gorbn_from_int (-2)) =
      cmpInt (gorbn_value (gorbn_from_uint 5)) (gorbn_value (gorbn_from_int (-2))) :=
  ⟨c9_cmp_spec.1 (gorbn_from_uint 5),
   c9_cmp_spec.2 (gorbn_from_uint 5) (gorbn_from_int (-2)) (by decide) (by decide)⟩

set_option maxRecDepth 4000 in
/-- Claim C9 (counterexample): the library itself produces a negative
zero — gorbn_sub(from_int(-3), from_int(-3)) has sign -1 and all words
0 — and gorbn_cmp declares the positive zero from_uint(0) LARGER than
it although both represent the signed value 0, so gorbn_cmp does not
return EQUAL exactly when the values coincide. -/
theorem c9_cmp_negative_zero :
    gorbn_cmp (gorbn_from_uint 0) (gorbn_sub (gorbn_from_int (-3)) (gorbn_from_int (-3))) =
      GORBN_CMP_LARGER ∧
    gorbn_value (gorbn_from_uint 0) =
      gorbn_value (gorbn_sub (gorbn_from_int (-3)) (gorbn_from_int (-3))) ∧
    (gorbn_sub (gorbn_from_int (-3)) (gorbn_from_int (-3))).sign = -1 := by
  decide

theorem getD_range_map (f : Nat → Nat) (n i : Nat) (h : i < n) :
    ((List.range n).map f).getD i 0 = f i := by
  rw [List.getD_eq_getElem _ _ (by simp [h])]
  simp [h]

theorem flatten_wordBytes_length (l : List Nat) :
    ((l.map wordBytes).flatten).length = 2 * l.length := by
  induction l with
  | nil => rfl
  | cons w ws ih =>
    simp only [List.map_cons, List.flatten_cons, List.length_append, ih, List.length_cons]
    simp [wordBytes]
    omega

theorem flatten_wordBytes_getD (l : List Nat) : ∀ i, i < l.length →
    ((l.map wordBytes).flatten).getD (2 * i) 0 = l.getD i 0 % 256 ∧
    ((l.map wordBytes).flatten).getD (2 * i + 1) 0 = l.getD i 0 / 256 % 256 := by
  induction l with
  | nil => intro i h; simp at h
  | cons w ws ih =>
    intro i h
    have hstep : ((w :: ws).map wordBytes).flatten =
        w % 256 :: w / 256 % 256 :: (ws.map wordBytes).flatten := rfl
    cases i with
    | zero => rw [hstep]; exact ⟨rfl, rfl⟩
    | succ i =>
      have h2 : i < ws.length := by simpa using h
      obtain ⟨ha, hb⟩ := ih i h2
      have e1 : 2 * (i + 1) = 2 * i + 1 + 1 := by ring
      have e2 : 2 * (i + 1) + 1 = (2 * i + 1) + 1 + 1 := by ring
      constructor
      · rw [hstep, e1, List.getD_cons_succ, List.getD_cons_succ, ha, List.getD_cons_succ]
      · rw [hstep, e2, List.getD_cons_succ, List.getD_cons_succ, hb, List.getD_cons_succ]

theorem to_data_from_data_eq (data : List Nat) (n : Nat) :
    gorbn_to_data (gorbn_from_data data n) =
      (((List.range GORBN_SZARR).map (fun i =>
        _gorbn_data_byte data n (2 * i) + 256 * _gorbn_data_byte data n (2 * i + 1))).map
          wordBytes).flatten := rfl

/-- Claim C10: for a byte buffer of length n <= 256 =
GORBN_SZARR * GORBN_SZWORD, exporting gorbn_from_data(buf, n) with
gorbn_to_data yields exactly 256 bytes: the first n reproduce the
buffer and the rest are zero. -/
theorem c10_from_to_data_round_trip (data : List Nat) (n : Nat)
    (hn : n ≤ GORBN_SZARR * GORBN_SZWORD) (hlen : data.length = n)
    (hdata : ∀ x ∈ data, x < 256) :
    (gorbn_to_data (gorbn_from_data data n)).length = GORBN_SZARR * GORBN_SZWORD ∧
    ∀ k, k < GORBN_SZARR * GORBN_SZWORD →
      (gorbn_to_data (gorbn_from_data data n)).getD k 0 =
        if k < n then data.getD k 0 else 0 := by
  have hbyte : ∀ k, _gorbn_data_byte data n k < 256 := by
    intro k
    unfold _gorbn_data_byte
    by_cases hk : k < n
    · rw [if_pos hk]
      have hk2 : k < data.length := by omega
      rw [List.getD_eq_getElem _ _ hk2]
      exact hdata _ (List.getElem_mem hk2)
    · rw [if_neg hk]
      omega
  have hwl : ((List.range GORBN_SZARR).map (fun i =>
      _gorbn_data_byte data n (2 * i) + 256 * _gorbn_data_byte data n (2 * i + 1))).length =
      GORBN_SZARR := by
    simp
  constructor
  · rw [to_data_from_data_eq, flatten_wordBytes_length, hwl]
    decide
  · intro k hk
    rw [to_data_from_data_eq]
    have hkk : k < 256 := by
      unfold GORBN_SZARR GORBN_SZWORD at hk
      omega
    rcases Nat.even_or_odd k with ⟨i, hi⟩ | ⟨i, hi⟩
    · have hi2 : k = 2 * i := by omega
      have hilt : i < GORBN_SZARR := by unfold GORBN_SZARR; omega
      obtain ⟨ha, _⟩ := flatten_wordBytes_getD _ i (by rw [hwl]; exact hilt)
      rw [hi2, ha, getD_range_map _ _ _ hilt]
      have h1 := hbyte (2 * i)
      have h2 := hbyte (2 * i + 1)
      have hmod : (_gorbn_data_byte data n (2 * i) +
          256 * _gorbn_data_byte data n (2 * i + 1)) % 256 =
          _gorbn_data_byte data n (2 * i) := by omega
      rw [hmod]
      unfold _gorbn_data_byte
      rfl
    · have hi2 : k = 2 * i + 1 := by omega
      have hilt : i < GORBN_SZARR := by unfold GORBN_SZARR; omega
      obtain ⟨_, hb⟩ := flatten_wordBytes_getD _ i (by rw [hwl]; exact hilt)
      rw [hi2, hb, getD_range_map _ _ _ hilt]
      have h1 := hbyte (2 * i)
      have h2 := hbyte (2 * i + 1)
      have hmod : (_gorbn_data_byte data n (2 * i) +
          256 * _gorbn_data_byte data n (2 * i + 1)) / 256 % 256 =
          _gorbn_data_byte data n (2 * i + 1) := by omega
      rw [hmod]
      unfold _gorbn_data_byte
      rfl

set_option maxRecDepth 4000 in
/-- Claim C10 witness: the round trip applied at the two-byte buffer
[171, 205] with n = 2. -/
theorem c10_from_to_data_round_trip_witness :
    (gorbn_to_data (gorbn_from_data [171, 205] 2)).length = GORBN_SZARR * GORBN_SZWORD ∧
    ∀ k, k < GORBN_SZARR * GORBN_SZWORD →
      (gorbn_to_data (gorbn_from_data [171, 205] 2)).getD k 0 =
        if k < 2 then [171, 205].getD k 0 else 0 :=
  c10_from_to_data_round_trip [171, 205] 2 (by decide) (by decide) (by decide)
